import Mathlib

/-!
Formal model of the Shopify metaobject loader repository
(`shopify_metaobject_loader.py` and the `shopify_metaobjects` package).

Modelling conventions:
* Python dictionaries are association lists with overwrite-on-insert
  semantics (`dictInsert` / `dictGet`); insertion order is preserved.
* Dynamic ("Any"-typed) Python values are the closed inductive `PyValue`;
  container contents are not modelled because no validated operation
  inspects them.
* Python code that can raise is modelled in `Except PyErr`.
* Network transport is modelled by quantifying over the sequence of
  responses (one per attempt, or one page per pagination step).
-/

/-- Python dict insertion (`d[k] = v`): overwrite the value at an existing
key in place, otherwise append the new binding at the end. -/
def dictInsert {κ β : Type} [DecidableEq κ] : List (κ × β) → κ → β → List (κ × β)
  | [], k, v => [(k, v)]
  | (k0, v0) :: rest, k, v =>
    if k0 = k then (k, v) :: rest else (k0, v0) :: dictInsert rest k v

/-- Python dict lookup (`d.get(k)`). -/
def dictGet {κ β : Type} [DecidableEq κ] : List (κ × β) → κ → Option β
  | [], _ => none
  | (k0, v0) :: rest, k => if k0 = k then some v0 else dictGet rest k

/-- Dynamic Python values as seen by validation: strings, ints, floats
(modelled over `Rat`), booleans, and containers (contents irrelevant to
every modelled operation). -/
inductive PyValue : Type
  | str (s : String)
  | int (n : Int)
  | float (q : Rat)
  | bool (b : Bool)
  | dict
  | list
deriving DecidableEq

/-- `type(value).__name__` for the modelled dynamic values. -/
def pyTypeName : PyValue → String
  | .str _ => "str"
  | .int _ => "int"
  | .float _ => "float"
  | .bool _ => "bool"
  | .dict => "dict"
  | .list => "list"

/-- Kinds of Python exceptions the modelled code can raise for data
issues. -/
inductive PyErr : Type
  | valueError
  | typeError
  | regexError
deriving DecidableEq

/-- Decimal digit value. -/
def digitVal (c : Char) : Nat := c.toNat - '0'.toNat

/-- Value of a big-endian digit string. -/
def natOfDigits (ds : List Char) : Nat :=
  ds.foldl (fun acc c => 10 * acc + digitVal c) 0

/-- Modelled subset of Python `float(str)`: optional sign, then digits with
an optional single decimal point, at least one digit overall (covers the
numeric strings the loader's validations compare; exponents, infinities
and surrounding whitespace of the full Python grammar are outside the
modelled subset).  `none` models a raised `ValueError`. -/
def parseFloatStr (s : String) : Option Rat :=
  let cs0 := s.toList
  let signRest :=
    match cs0 with
    | '-' :: rest => ((-1 : Int), rest)
    | '+' :: rest => ((1 : Int), rest)
    | _ => ((1 : Int), cs0)
  let sign := signRest.1
  let cs := signRest.2
  let intPart := cs.takeWhile Char.isDigit
  let rest := cs.dropWhile Char.isDigit
  match rest with
  | [] =>
    if intPart.isEmpty then none
    else some ((sign : Rat) * (natOfDigits intPart : Rat))
  | '.' :: frac =>
    if frac.all Char.isDigit ∧ (intPart ≠ [] ∨ frac ≠ []) then
      some ((sign : Rat) * ((natOfDigits intPart : Rat) +
        (natOfDigits frac : Rat) / ((10 : Rat) ^ frac.length)))
    else none
  | _ => none

/-- Python `float(value)` on a dynamic value: numeric strings parse,
numbers and booleans coerce, containers raise `TypeError`, non-numeric
strings raise `ValueError`. -/
def pyFloat : PyValue → Except PyErr Rat
  | .str s =>
    match parseFloatStr s with
    | some q => Except.ok q
    | none => Except.error PyErr.valueError
  | .int n => Except.ok (n : Rat)
  | .float q => Except.ok q
  | .bool b => Except.ok (if b then 1 else 0)
  | .dict => Except.error PyErr.typeError
  | .list => Except.error PyErr.typeError

/-- Python `float(rule_value)` where the rule value is textual. -/
def floatOfStr (s : String) : Except PyErr Rat :=
  match parseFloatStr s with
  | some q => Except.ok q
  | none => Except.error PyErr.valueError

/-- Python `str(value)` on a dynamic value.  The renderings of floats and
containers are stand-ins (no modelled operation depends on them); `str`,
`int` and `bool` renderings follow Python. -/
def pyStr : PyValue → String
  | .str s => s
  | .int n => toString n
  | .float q => toString q
  | .bool b => if b then "True" else "False"
  | .dict => "\x7b\x7d"
  | .list => "[]"

/-- Regular-expression atom: a literal character or a character class given
by inclusive ranges. -/
inductive RAtom : Type
  | lit (c : Char)
  | cls (ranges : List (Char × Char))
deriving DecidableEq

/-- A parsed pattern: a sequence of atoms with exact repetition counts,
plus whether the pattern ends with the `$` anchor.  This is the subset of
Python `re` syntax exercised by the loader's `pattern` validations
(literals, character classes with ranges, `{n}` repetition, `^`/`$`
anchors); any other construct is rejected by the parser. -/
structure RegexP : Type where
  pieces : List (RAtom × Nat)
  endAnchor : Bool
deriving DecidableEq

/-- Parse the body of a character class (after `[`), accumulating ranges;
returns the ranges and the input remaining after the closing `]`.  Empty
classes, escapes and reversed ranges are rejected, as Python rejects or
re-interprets them. -/
def parseClassGo : Nat → List Char → List (Char × Char) →
    Option (List (Char × Char) × List Char)
  | _, [], _ => none
  | _ + 1, ']' :: rest, acc =>
    if acc = [] then none else some (acc.reverse, rest)
  | fuel + 1, c1 :: '-' :: c2 :: rest, acc =>
    if c2 = ']' ∨ c1 = '\\' ∨ c2 = '\\' ∨ c2 < c1 then none
    else parseClassGo fuel rest ((c1, c2) :: acc)
  | fuel + 1, c :: rest, acc =>
    if c = '\\' then none else parseClassGo fuel rest ((c, c) :: acc)
  | 0, _, _ => none

/-- Characters that are regex metacharacters and therefore not accepted as
plain literals by the modelled subset. -/
def specialChar (c : Char) : Bool :=
  c = '*' ∨ c = '+' ∨ c = '?' ∨ c = '(' ∨ c = ')' ∨ c = '|' ∨ c = '.' ∨
  c = '[' ∨ c = ']' ∨ c = '\\' ∨ c = '^' ∨ c = '$' ∨ c = '\x7b' ∨ c = '\x7d'

/-- Parse an optional `\x7bn\x7d` repetition suffix; a missing suffix means a
count of one.  Other quantifiers are outside the modelled subset. -/
def parseQuant : List Char → Option (Nat × List Char)
  | '\x7b' :: rest =>
    let ds := rest.takeWhile Char.isDigit
    match rest.dropWhile Char.isDigit with
    | '\x7d' :: rem => if ds = [] then none else some (natOfDigits ds, rem)
    | _ => none
  | rest => some (1, rest)

/-- Parse a pattern body into quantified atoms and an end-anchor flag. -/
def parsePiecesGo : Nat → List Char → Option (List (RAtom × Nat) × Bool)
  | _, [] => some ([], false)
  | _ + 1, ['$'] => some ([], true)
  | fuel + 1, '[' :: rest =>
    match parseClassGo fuel rest [] with
    | none => none
    | some (ranges, rem) =>
      match parseQuant rem with
      | none => none
      | some (n, rem2) =>
        match parsePiecesGo fuel rem2 with
        | none => none
        | some (ps, e) => some ((RAtom.cls ranges, n) :: ps, e)
  | fuel + 1, c :: rest =>
    if specialChar c then none
    else
      match parseQuant rest with
      | none => none
      | some (n, rem2) =>
        match parsePiecesGo fuel rem2 with
        | none => none
        | some (ps, e) => some ((RAtom.lit c, n) :: ps, e)
  | 0, _ => none

/-- Parse a pattern string.  A leading `^` is consumed (Python `re.match`
already anchors at the start); `none` models `re.error`, raised at match
time because `re.match` compiles its pattern argument. -/
def parsePattern (s : String) : Option RegexP :=
  let cs0 := s.toList
  let cs := match cs0 with
    | '^' :: rest => rest
    | _ => cs0
  match parsePiecesGo (cs.length + 1) cs with
  | none => none
  | some (ps, e) => some ⟨ps, e⟩

/-- Does a character match an atom? -/
def matchAtom : RAtom → Char → Bool
  | .lit c, x => x = c
  | .cls rs, x => rs.any (fun r => r.1 ≤ x ∧ x ≤ r.2)

/-- Consume exactly `n` characters each matching the atom. -/
def matchRep (a : RAtom) : Nat → List Char → Option (List Char)
  | 0, s => some s
  | _ + 1, [] => none
  | n + 1, c :: rest => if matchAtom a c then matchRep a n rest else none

/-- Consume the quantified atoms in sequence, returning the unconsumed
suffix. -/
def matchPieces : List (RAtom × Nat) → List Char → Option (List Char)
  | [], s => some s
  | (a, n) :: ps, s =>
    match matchRep a n s with
    | some s2 => matchPieces ps s2
    | none => none

/-- `bool(re.match(pattern, text))` for a parsed pattern: match anchored at
the start of the text; the `$` anchor additionally requires the whole text
to be consumed. -/
def reMatch (r : RegexP) (s : String) : Bool :=
  match matchPieces r.pieces s.toList with
  | some rest => if r.endAnchor then rest.isEmpty else true
  | none => false

/-- One declared validation rule `\x7bname, value\x7d` of a field definition. -/
structure Validation : Type where
  name : String
  value : String
deriving DecidableEq

/-- `MetaobjectFieldDefinition` (TypedDict) from the source. -/
structure MetaobjectFieldDefinition : Type where
  key : String
  name : String
  type : String
  description : Option String
  required : Bool
  validations : List Validation
deriving DecidableEq

/-- `MetaobjectDefinition` (TypedDict) from the source. -/
structure MetaobjectDefinition : Type where
  type : String
  name : String
  description : Option String
  fields : List MetaobjectFieldDefinition
deriving DecidableEq

/-- The loader's `Metaobject` as consumed by validation: `fields` is the
dict of field key/value pairs; `type`, `handle` and `id` are carried but
not read by `validate_metaobject_definition`. -/
structure Metaobject : Type where
  type : String
  handle : String
  id : Option String
  fields : List (String × PyValue)
deriving DecidableEq

/-- `ShopifyMetaobjectLoader._validate_field_type`: the `type_map` lookup
followed by `isinstance`.  Python subtleties preserved: `bool` is a
subclass of `int`, so boolean values satisfy `int`-expecting entries;
unknown declared types skip validation (return `True`). -/
def validate_field_type (v : PyValue) (expected : String) : Bool :=
  let isStr : Bool := match v with | .str _ => true | _ => false
  let isIntLike : Bool := match v with | .int _ => true | .bool _ => true | _ => false
  let isNumLike : Bool :=
    match v with | .int _ => true | .float _ => true | .bool _ => true | _ => false
  let isBool : Bool := match v with | .bool _ => true | _ => false
  let isJson : Bool := match v with | .dict => true | .list => true | _ => false
  if expected = "single_line_text_field" then isStr
  else if expected = "multi_line_text_field" then isStr
  else if expected = "number_integer" then isIntLike
  else if expected = "number_decimal" then isNumLike
  else if expected = "boolean" then isBool
  else if expected = "date" then isStr
  else if expected = "date_time" then isStr
  else if expected = "json" then isJson
  else if expected = "color" then isStr
  else if expected = "rating" then isNumLike
  else if expected = "dimension" then isNumLike
  else if expected = "volume" then isNumLike
  else if expected = "weight" then isNumLike
  else true

/-- `value in rule_value.split(",")`: only string values can equal the
string pieces produced by `str.split`. -/
def pyInSplit (v : PyValue) (ruleValue : String) : Bool :=
  match v with
  | .str s => (ruleValue.splitOn ",").contains s
  | _ => false

/-- `ShopifyMetaobjectLoader._validate_field_value`: dispatch on the rule
name; `min`/`max` coerce both sides with `float` (which can raise),
`pattern` compiles and matches the rule value as a regex (an invalid
pattern raises `re.error`), `in` tests membership in the comma-split list,
and unknown rule names are skipped (`True`). -/
def validate_field_value (v : PyValue) (rule : Validation) : Except PyErr Bool :=
  if rule.name = "min" then do
    let a ← pyFloat v
    let b ← floatOfStr rule.value
    pure (b ≤ a)
  else if rule.name = "max" then do
    let a ← pyFloat v
    let b ← floatOfStr rule.value
    pure (a ≤ b)
  else if rule.name = "pattern" then
    match parsePattern rule.value with
    | some r => pure (reMatch r (pyStr v))
    | none => Except.error PyErr.regexError
  else if rule.name = "in" then
    pure (pyInSplit v rule.value)
  else pure true

/-- First loop of `validate_metaobject_definition`: one
"Missing required field" message per required key absent from the record's
fields. -/
def required_errors (fields : List MetaobjectFieldDefinition)
    (recFields : List (String × PyValue)) : List String :=
  fields.filterMap (fun f =>
    if f.required = true ∧ dictGet recFields f.key = none then
      some ("Missing required field: " ++ f.key)
    else none)

/-- Second loop of `validate_metaobject_definition`: a type violation per
field present in the record whose value fails `_validate_field_type`. -/
def type_errors (fields : List MetaobjectFieldDefinition)
    (recFields : List (String × PyValue)) : List String :=
  fields.filterMap (fun f =>
    match dictGet recFields f.key with
    | some v =>
      if validate_field_type v f.type then none
      else some ("Invalid type for field " ++ f.key ++ ": expected " ++
        f.type ++ ", got " ++ pyTypeName v)
    | none => none)

/-- The inner loop of the third phase: evaluate one field's validations in
order, appending a violation for each failed rule; a raised coercion or
regex error aborts the whole validation call. -/
def field_validation_errors (fkey : String) (v : PyValue) :
    List Validation → Except PyErr (List String)
  | [] => pure []
  | rule :: rest => do
    let ok ← validate_field_value v rule
    let tail ← field_validation_errors fkey v rest
    pure (if ok then tail
      else ("Validation failed for field " ++ fkey ++ ": " ++
        rule.name ++ " = " ++ rule.value) :: tail)

/-- Third loop of `validate_metaobject_definition`: per definition field,
evaluate its validations against the record value when present. -/
def validation_errors (fields : List MetaobjectFieldDefinition)
    (recFields : List (String × PyValue)) : Except PyErr (List String) :=
  match fields with
  | [] => pure []
  | f :: fs => do
    let head ←
      match dictGet recFields f.key with
      | some v => field_validation_errors f.key v f.validations
      | none => pure []
    let tail ← validation_errors fs recFields
    pure (head ++ tail)

/-- `ShopifyMetaobjectLoader.validate_metaobject_definition`: the three
accumulation loops in source order — required presence, then type
compatibility, then declared constraints. -/
def validate_metaobject_definition (m : Metaobject)
    (d : MetaobjectDefinition) : Except PyErr (List String) := do
  let req := required_errors d.fields m.fields
  let ty := type_errors d.fields m.fields
  let va ← validation_errors d.fields m.fields
  pure (req ++ ty ++ va)

/-- One entry of the wire payload's `fields` list. -/
structure WireField : Type where
  key : String
  value : String
deriving DecidableEq

/-- One entry of the wire payload's `metafields` list, as read by the
package `Metaobject.from_shopify_data` (`m.get('namespace', 'custom')` and
`m.get('key')` make both keys optional). -/
structure WireMetafield : Type where
  ns : Option String
  key : Option String
  value : String
  type : String
deriving DecidableEq

/-- A server-shaped payload: every identity key is read with `.get`, so
each may be absent. -/
structure WireData : Type where
  id : Option String
  type : Option String
  handle : Option String
  fields : List WireField
  metafields : List WireMetafield
deriving DecidableEq

/-- The package `Metaobject` as built by `from_shopify_data`: fields as a
key→value dict, metafields as a namespace→(key→metafield) dict of dicts. -/
structure MetaobjectPkg : Type where
  id : Option String
  type : Option String
  handle : Option String
  fields : List (String × String)
  metafields : List (String × List (Option String × WireMetafield))
deriving DecidableEq

/-- `shopify_metaobjects.metaobject.Metaobject.from_shopify_data`: the
fields dict comprehension, then the metafield loop that creates a
namespace bucket on demand (`custom` when the namespace key is absent) and
stores the whole wire metafield under its key.  The function is total: an
absent `type` or `handle` simply yields `none`. -/
def from_shopify_data (data : WireData) : MetaobjectPkg :=
  { id := data.id
    type := data.type
    handle := data.handle
    fields := data.fields.foldl (fun d f => dictInsert d f.key f.value) []
    metafields := data.metafields.foldl (fun d m =>
      let ns := m.ns.getD "custom"
      let bucket := (dictGet d ns).getD []
      dictInsert d ns (dictInsert bucket m.key m)) [] }

/-- The metafield dict stored by both `set_metafield` implementations:
`\x7b"key", "value", "type", "namespace"\x7d` (the last is named `ns` here
because `namespace` is reserved in Lean). -/
structure Metafield : Type where
  key : String
  value : String
  type : String
  ns : String
deriving DecidableEq

/-- Package `Metaobject.set_metafield` (nested indexing): create the
namespace bucket when absent, then store under the key. -/
def set_metafield_pkg (mfs : List (String × List (String × Metafield)))
    (key value type ns : String) : List (String × List (String × Metafield)) :=
  let bucket := (dictGet mfs ns).getD []
  dictInsert mfs ns (dictInsert bucket key ⟨key, value, type, ns⟩)

/-- Package `Metaobject.get_metafield`:
`self.metafields.get(namespace, \x7b\x7d).get(key)`. -/
def get_metafield_pkg (mfs : List (String × List (String × Metafield)))
    (key ns : String) : Option Metafield :=
  dictGet ((dictGet mfs ns).getD []) key

/-- Loader `Metaobject.set_metafield` (flat indexing): store under the
string `f"\x7bnamespace\x7d.\x7bkey\x7d"`. -/
def set_metafield_flat (mfs : List (String × Metafield))
    (key value type ns : String) : List (String × Metafield) :=
  dictInsert mfs (ns ++ "." ++ key) ⟨key, value, type, ns⟩

/-- Loader `Metaobject.get_metafield`:
`self.metafields.get(f"\x7bnamespace\x7d.\x7bkey\x7d")`. -/
def get_metafield_flat (mfs : List (String × Metafield))
    (key ns : String) : Option Metafield :=
  dictGet mfs (ns ++ "." ++ key)

/-- A persisted cache entry `\x7btimestamp, data\x7d`; time is modelled as an
integer instant, the cached payload as a string. -/
structure CacheEntry : Type where
  timestamp : Int
  data : String
deriving DecidableEq

/-- `ShopifyMetaobjectLoader._get_from_cache`, given the parsed cache file
and the current time: the source returns the stored data when
`datetime.fromisoformat(data["timestamp"]) < datetime.now()` and falls
through to `None` otherwise. -/
def get_from_cache (entry : CacheEntry) (now : Int) : Option String :=
  if entry.timestamp < now then some entry.data else none

/-- The expiry instant `ShopifyMetaobjectLoader._save_to_cache` writes:
`datetime.now() + pd.Timedelta(seconds=ttl_seconds)`. -/
def save_to_cache_timestamp (now : Int) (ttlSeconds : Int) : Int :=
  now + ttlSeconds

/-- The error taxonomy of one request attempt: `rateLimit` is
`ShopifyRateLimitError`, `requestException` is any
`requests.RequestException` (including the `HTTPError` from
`raise_for_status`), `apiError` is `ShopifyAPIError` for a non-empty
GraphQL `errors` array, `userError` is `ShopifyUserError`. -/
inductive ReqErr : Type
  | rateLimit
  | requestException
  | apiError
  | userError
deriving DecidableEq

/-- The tenacity predicate
`retry_if_exception_type((ShopifyRateLimitError, requests.RequestException))`. -/
def retryable : ReqErr → Bool
  | .rateLimit => true
  | .requestException => true
  | .apiError => false
  | .userError => false

/-- One HTTP response as consumed by `make_graphql_request`: its status
code, whether the JSON body has a non-empty top-level `errors` key, and
the `data` payload (modelled as an opaque string). -/
structure HttpResponse : Type where
  statusCode : Nat
  jsonErrors : Bool
  jsonData : String
deriving DecidableEq

/-- `shopify_metaobjects.api.make_graphql_request`, one attempt (the body
inside the tenacity decorator): `response.raise_for_status()` raises
`requests.HTTPError` for every 4xx/5xx status; only then comes the
`status_code == 429` check, the GraphQL `errors` check, and the `data`
projection.  The final `except requests.RequestException` clause re-raises
unchanged. -/
def make_graphql_request (resp : HttpResponse) : Except ReqErr String :=
  if 400 ≤ resp.statusCode ∧ resp.statusCode < 600 then
    Except.error ReqErr.requestException
  else if resp.statusCode = 429 then
    Except.error ReqErr.rateLimit
  else if resp.jsonErrors then
    Except.error ReqErr.apiError
  else
    Except.ok resp.jsonData

/-- `tenacity.wait_exponential(multiplier=1, min=4, max=10)`: the wait
after a failed attempt numbered `n` (1-based) is `2 ^ n` clamped into
`[4, 10]`. -/
def wait_exponential (n : Nat) : Nat := max 4 (min (2 ^ n) 10)

/-- Result of the retry-wrapped call: a returned value, an exception
re-raised to the caller on a non-retryable failure, or tenacity's
`RetryError` wrapping the last attempt's exception once the stop condition
`stop_after_attempt(3)` is reached. -/
inductive RetryResult (α : Type) : Type
  | ok (v : α)
  | raised (e : ReqErr)
  | retryError (last : ReqErr)
deriving DecidableEq

/-- The tenacity driver loop: run the attempt with the current 1-based
attempt number; on a retryable failure, either stop (no fuel left, raising
`RetryError` around the last exception) or wait and try again; a
non-retryable failure is re-raised at once.  Returns the result, the
number of attempts made, and the list of waits taken. -/
def tenacityGo {α : Type} (att : Nat → Except ReqErr α) :
    Nat → Nat → List Nat → RetryResult α × Nat × List Nat
  | attemptNo, fuel, ws =>
    match att attemptNo with
    | Except.ok v => (RetryResult.ok v, attemptNo, ws)
    | Except.error e =>
      if retryable e then
        match fuel with
        | 0 => (RetryResult.retryError e, attemptNo, ws)
        | fuel' + 1 =>
          tenacityGo att (attemptNo + 1) fuel' (ws ++ [wait_exponential attemptNo])
      else (RetryResult.raised e, attemptNo, ws)

/-- A call through the decorator
`@retry(stop=stop_after_attempt(3), wait=wait_exponential(multiplier=1,
min=4, max=10), retry=retry_if_exception_type((ShopifyRateLimitError,
requests.RequestException)))` shared by
`shopify_metaobjects.api.make_graphql_request` and
`ShopifyMetaobjectLoader._make_request`: attempt 1 first, at most two
retries. -/
def retry_call {α : Type} (att : Nat → Except ReqErr α) :
    RetryResult α × Nat × List Nat :=
  tenacityGo att 1 2 []

/-- One page of `fetch_metaobjects` output, as consumed by
`fetch_all_metaobjects`: the extracted `edges` nodes, `hasNextPage`, and
`endCursor`. -/
structure Page (α : Type) : Type where
  items : List α
  hasNextPage : Bool
  endCursor : Option String
deriving DecidableEq

/-- Python truthiness of the pagination cursor (`not cursor` is true for
both a missing cursor and an empty string). -/
def cursorTruthy : Option String → Bool
  | none => false
  | some s => decide (s ≠ "")

/-- `ShopifyMetaobjectLoader.fetch_all_metaobjects` over the sequence of
pages the transport returns, in request order: extend the accumulator with
the page's items; stop when `hasNextPage` is false; when `hasNextPage` is
true but the cursor is falsy, log a warning and break (keeping that page's
items).  An exhausted page sequence models the server answering with an
empty object, whose missing `pageInfo` reads as `hasNextPage = False`. -/
def fetch_all_metaobjects {α : Type} : List (Page α) → List α
  | [] => []
  | p :: rest =>
    p.items ++
      (if p.hasNextPage then
        (if cursorTruthy p.endCursor then fetch_all_metaobjects rest else [])
      else [])

/-- The pages the walk actually consumes: every page up to and including
the first whose flags stop the loop. -/
def visitedPages {α : Type} : List (Page α) → List (Page α)
  | [] => []
  | p :: rest =>
    p :: (if p.hasNextPage ∧ cursorTruthy p.endCursor then visitedPages rest else [])

/-- The outcome of `_upsert_metaobject` for one record as observed by
`batch_upsert_metaobjects`: a returned metaobject (truthy), a `None`
result, or a raised `ShopifyAPIError` (which the batch loop catches). -/
inductive UpsertOutcome : Type
  | success
  | absent
  | apiError
deriving DecidableEq

/-- The running tally of `batch_upsert_metaobjects`. -/
structure UpsertStats : Type where
  upserted : Nat
  failed : Nat
deriving DecidableEq

/-- One iteration of the inner loop of `batch_upsert_metaobjects`. -/
def tally_record (s : UpsertStats) (o : UpsertOutcome) : UpsertStats :=
  match o with
  | .success => ⟨s.upserted + 1, s.failed⟩
  | .absent => ⟨s.upserted, s.failed + 1⟩
  | .apiError => ⟨s.upserted, s.failed + 1⟩

/-- `metaobjects[i : i + batch_size]` slicing for
`i = 0, batch_size, 2 * batch_size, ...`, driven by fuel (the slice count
is bounded by the list length once `bs ≥ 1`). -/
def chunksOfGo {α : Type} (bs : Nat) : Nat → List α → List (List α)
  | 0, _ => []
  | _, [] => []
  | fuel + 1, l => l.take bs :: chunksOfGo bs fuel (l.drop bs)

/-- The batch partition `range(0, len(metaobjects), batch_size)` of
`batch_upsert_metaobjects` (meaningful for `batch_size ≥ 1`). -/
def chunksOf {α : Type} (bs : Nat) (l : List α) : List (List α) :=
  chunksOfGo bs l.length l

/-- `ShopifyMetaobjectLoader.batch_upsert_metaobjects`, with each record
represented by the outcome of its individual upsert: slice into batches,
then process every record of every batch sequentially, counting successes
and failures; the tally is returned unconditionally. -/
def batch_upsert_metaobjects (outcomes : List UpsertOutcome)
    (batchSize : Nat) : UpsertStats :=
  (chunksOf batchSize outcomes).foldl
    (fun s batch => batch.foldl tally_record s) ⟨0, 0⟩

/-- The declared types with an entry in `_validate_field_type`'s
`type_map`. -/
def known_type_names : List String :=
  ["single_line_text_field", "multi_line_text_field", "number_integer",
   "number_decimal", "boolean", "date", "date_time", "json", "color",
   "rating", "dimension", "volume", "weight"]

/-- Does `float(value)` succeed on this dynamic value? -/
def floatCoercible (v : PyValue) : Bool :=
  match pyFloat v with
  | Except.ok _ => true
  | Except.error _ => false

/-- A validation rule evaluates without raising on this value: `min`/`max`
need both sides to coerce to a number, `pattern` needs a well-formed
pattern; every other rule is always safe. -/
def rule_safe (v : PyValue) (rule : Validation) : Bool :=
  if rule.name = "min" ∨ rule.name = "max" then
    floatCoercible v && (parseFloatStr rule.value).isSome
  else if rule.name = "pattern" then (parsePattern rule.value).isSome
  else true

/-- Modelled from the spec: a record "satisfying every required/type/
validation rule" of a definition — every required key present, every
present value type-compatible, every declared constraint of every present
field evaluating to satisfied. -/
def satisfies_definition (m : Metaobject) (d : MetaobjectDefinition) : Prop :=
  (∀ f ∈ d.fields, f.required = true → dictGet m.fields f.key ≠ none) ∧
  (∀ f ∈ d.fields, ∀ v, dictGet m.fields f.key = some v →
    validate_field_type v f.type = true) ∧
  (∀ f ∈ d.fields, ∀ v, dictGet m.fields f.key = some v →
    ∀ rule ∈ f.validations, validate_field_value v rule = Except.ok true)

/-- The grouping identity of a wire metafield: the namespace bucket it
lands in (default `custom`) and its key within that bucket. -/
def mfGroupKey (m : WireMetafield) : String × Option String :=
  (m.ns.getD "custom", m.key)

/-- One step of the metafield-grouping loop of `from_shopify_data`
(definitionally the loop body used there, with the `let` bindings
inlined). -/
def metafield_fold_step
    (d : List (String × List (Option String × WireMetafield)))
    (m : WireMetafield) : List (String × List (Option String × WireMetafield)) :=
  dictInsert d (m.ns.getD "custom")
    (dictInsert ((dictGet d (m.ns.getD "custom")).getD []) m.key m)

/-! ## Helper lemmas -/

theorem dictGet_dictInsert_self {κ β : Type} [DecidableEq κ]
    (d : List (κ × β)) (k : κ) (v : β) :
    dictGet (dictInsert d k v) k = some v := by
  induction d with
  | nil => simp [dictInsert, dictGet]
  | cons hd tl ih =>
    obtain ⟨k0, v0⟩ := hd
    by_cases h : k0 = k
    · simp [dictInsert, dictGet, h]
    · simp [dictInsert, dictGet, h, ih]

theorem dictGet_dictInsert_ne {κ β : Type} [DecidableEq κ]
    (d : List (κ × β)) (k k' : κ) (v : β) (hne : k ≠ k') :
    dictGet (dictInsert d k' v) k = dictGet d k := by
  have hne' : ¬ (k' = k) := fun h => hne h.symm
  induction d with
  | nil => simp [dictInsert, dictGet, hne']
  | cons hd tl ih =>
    obtain ⟨k0, v0⟩ := hd
    by_cases h : k0 = k'
    · subst h
      simp [dictInsert, dictGet, hne']
    · by_cases h2 : k0 = k <;> simp [dictInsert, dictGet, h, h2, hne, ih]

theorem get_metafield_pkg_set (mfs : List (String × List (String × Metafield)))
    (k v t ns : String) :
    get_metafield_pkg (set_metafield_pkg mfs k v t ns) k ns = some ⟨k, v, t, ns⟩ := by
  unfold get_metafield_pkg set_metafield_pkg
  rw [dictGet_dictInsert_self]
  simpa using dictGet_dictInsert_self _ k (⟨k, v, t, ns⟩ : Metafield)

/-! ## Claim theorems -/

/-- C3: for the descriptor with the single required `text` field `code`
carrying the pattern validation `^[A-Z]\x7b2\x7d$`, validating
`\x7b"code": "us"\x7d` yields exactly the pattern violation, validating
`\x7b"code": "US"\x7d` yields no violation, and validating a record with
no fields yields exactly the missing-required-field violation. -/
theorem validate_pattern_cases :
    validate_metaobject_definition
      ⟨"country", "h", none, [("code", PyValue.str "us")]⟩
      ⟨"country", "Country", none,
        [⟨"code", "Code", "text", none, true, [⟨"pattern", "^[A-Z]\x7b2\x7d$"⟩]⟩]⟩
      = Except.ok ["Validation failed for field code: pattern = ^[A-Z]\x7b2\x7d$"] ∧
    validate_metaobject_definition
      ⟨"country", "h", none, [("code", PyValue.str "US")]⟩
      ⟨"country", "Country", none,
        [⟨"code", "Code", "text", none, true, [⟨"pattern", "^[A-Z]\x7b2\x7d$"⟩]⟩]⟩
      = Except.ok [] ∧
    validate_metaobject_definition
      ⟨"country", "h", none, []⟩
      ⟨"country", "Country", none,
        [⟨"code", "Code", "text", none, true, [⟨"pattern", "^[A-Z]\x7b2\x7d$"⟩]⟩]⟩
      = Except.ok ["Missing required field: code"] :=
  ⟨rfl, rfl, rfl⟩

/-- C1 counterexample: a `min` validation applied to a field value whose
textual form is not numeric makes `validate_metaobject_definition` raise
`ValueError` (from `float(value)`) instead of reporting a violation
string. -/
theorem validate_min_nonnumeric_raises :
    validate_metaobject_definition
      ⟨"country", "h", none, [("code", PyValue.str "us")]⟩
      ⟨"country", "Country", none,
        [⟨"code", "Code", "text", none, true, [⟨"min", "1"⟩]⟩]⟩
      = Except.error PyErr.valueError :=
  rfl

/-- C2 counterexample: a wire payload with no `type` key (and here also no
`id`) still constructs a record — `from_shopify_data` is total and simply
stores `none`; no `MalformedRecordError` (which exists nowhere in the
source) is raised. -/
theorem from_shopify_data_missing_type_succeeds :
    from_shopify_data ⟨none, none, some "h", [], []⟩ =
      ⟨none, none, some "h", [], []⟩ :=
  rfl

/-- C8: the persisted-cache read comparison is inverted in the source —
`_get_from_cache` returns `None` for an entry whose stored expiry is still
in the future (here expiry 3600, read at time 10) and returns the stored
data once the current time exceeds the stored timestamp (read at time
5000), the reverse of the claim and of the function's own docstring
("Get data from cache if available and not expired"). -/
theorem cache_read_inverted_comparison :
    get_from_cache ⟨3600, "payload"⟩ 10 = none ∧
    get_from_cache ⟨3600, "payload"⟩ 5000 = some "payload" ∧
    save_to_cache_timestamp 0 3600 = 3600 :=
  ⟨rfl, rfl, rfl⟩

/-- C9: the get-after-set law holds in both `Metaobject` implementations —
after `set_metafield(k, v, t, ns)`, `get_metafield(k, ns)` returns exactly
the stored mapping, both with the package's nested namespace-then-key
index and the loader's flat `"namespace.key"` index. -/
theorem get_after_set_metafield :
    ∀ (mfsA : List (String × List (String × Metafield)))
      (mfsB : List (String × Metafield)) (k v t ns : String),
      get_metafield_pkg (set_metafield_pkg mfsA k v t ns) k ns =
        some ⟨k, v, t, ns⟩ ∧
      get_metafield_flat (set_metafield_flat mfsB k v t ns) k ns =
        some ⟨k, v, t, ns⟩ := by
  intro mfsA mfsB k v t ns
  exact ⟨get_metafield_pkg_set mfsA k v t ns,
    dictGet_dictInsert_self mfsB (ns ++ "." ++ k) ⟨k, v, t, ns⟩⟩

/-- C10: the `status_code == 429` branch of the transport is dead code —
`raise_for_status()` turns every 4xx/5xx response (429 included) into a
`requests.RequestException` first, so `ShopifyRateLimitError` is never
raised and a rate-limited response surfaces as a retryable generic
transport exception. -/
theorem rate_limit_branch_unreachable :
    ∀ resp : HttpResponse,
      make_graphql_request resp ≠ Except.error ReqErr.rateLimit ∧
      (resp.statusCode = 429 →
        make_graphql_request resp = Except.error ReqErr.requestException ∧
        retryable ReqErr.requestException = true) := by
  intro resp
  constructor
  · unfold make_graphql_request
    by_cases h4 : 400 ≤ resp.statusCode ∧ resp.statusCode < 600
    · simp [h4]
    · have h429 : ¬ resp.statusCode = 429 := by omega
      by_cases hj : resp.jsonErrors <;> simp [h4, h429, hj]
  · intro h429
    have h4 : 400 ≤ resp.statusCode ∧ resp.statusCode < 600 := by omega
    unfold make_graphql_request
    simp [h4, retryable]

/-- Witness for C10 at the concrete 429 response. -/
theorem rate_limit_branch_witness :
    make_graphql_request ⟨429, false, "d"⟩ = Except.error ReqErr.requestException ∧
    retryable ReqErr.requestException = true :=
  (rate_limit_branch_unreachable ⟨429, false, "d"⟩).2 rfl

/-- C6 counterexample: when all three attempts fail rate-limited, the
tenacity decorator (default `reraise=False`) surfaces a `RetryError`
wrapping the last exception — not the last error unchanged in kind. -/
theorem retry_exhaustion_wraps_error :
    retry_call (fun _ => (Except.error ReqErr.rateLimit : Except ReqErr String)) =
      (RetryResult.retryError ReqErr.rateLimit, 3, [4, 4]) ∧
    (RetryResult.retryError ReqErr.rateLimit : RetryResult String) ≠
      RetryResult.raised ReqErr.rateLimit :=
  ⟨rfl, fun h => RetryResult.noConfusion h⟩

theorem fetch_all_eq_visited {α : Type} (pages : List (Page α)) :
    fetch_all_metaobjects pages = ((visitedPages pages).map Page.items).flatten := by
  induction pages with
  | nil => simp [fetch_all_metaobjects, visitedPages]
  | cons p rest ih =>
    by_cases h1 : p.hasNextPage = true
    · by_cases h2 : cursorTruthy p.endCursor = true
      · simp [fetch_all_metaobjects, visitedPages, h1, h2, ih]
      · simp [fetch_all_metaobjects, visitedPages, h1, h2]
    · simp [fetch_all_metaobjects, visitedPages, h1]

theorem fetch_all_break {α : Type} (pre : List (Page α)) (p : Page α)
    (rest : List (Page α))
    (hpre : ∀ q ∈ pre, q.hasNextPage = true ∧ cursorTruthy q.endCursor = true)
    (hp1 : p.hasNextPage = true) (hp2 : cursorTruthy p.endCursor = false) :
    fetch_all_metaobjects (pre ++ p :: rest) =
      (pre.map Page.items).flatten ++ p.items := by
  induction pre with
  | nil => simp [fetch_all_metaobjects, hp1, hp2]
  | cons q qs ih =>
    have hq := hpre q (List.mem_cons_self q qs)
    have ihq := ih (fun r hr => hpre r (List.mem_cons_of_mem q hr))
    simp [fetch_all_metaobjects, hq.1, hq.2, ihq]

/-- C5: the pagination walk returns exactly the concatenation, in request
order, of the items of the pages it visits; and when a page reports
`hasNextPage` with a missing or empty cursor, the walk stops there,
returning the items of the earlier pages plus that page's own items. -/
theorem fetch_all_concatenates_pages :
    ∀ {α : Type} (pages : List (Page α)),
      fetch_all_metaobjects pages = ((visitedPages pages).map Page.items).flatten ∧
      (∀ (pre : List (Page α)) (p : Page α) (rest : List (Page α)),
        pages = pre ++ p :: rest →
        (∀ q ∈ pre, q.hasNextPage = true ∧ cursorTruthy q.endCursor = true) →
        p.hasNextPage = true → cursorTruthy p.endCursor = false →
        fetch_all_metaobjects pages = (pre.map Page.items).flatten ++ p.items) := by
  intro α pages
  refine ⟨fetch_all_eq_visited pages, ?_⟩
  intro pre p rest hsplit hpre hp1 hp2
  rw [hsplit]
  exact fetch_all_break pre p rest hpre hp1 hp2

/-- Witness for C5: two pages, the second reporting `hasNextPage` without
a cursor — the walk returns both pages' items and stops. -/
theorem fetch_all_concatenates_witness :
    fetch_all_metaobjects
      [(⟨[1, 2], true, some "c"⟩ : Page Nat), ⟨[3], true, none⟩] = [1, 2, 3] := by
  have h :=
    (fetch_all_concatenates_pages
      [(⟨[1, 2], true, some "c"⟩ : Page Nat), ⟨[3], true, none⟩]).2
      [⟨[1, 2], true, some "c"⟩] ⟨[3], true, none⟩ [] rfl
      (by intro q hq; simp at hq; subst hq; exact ⟨rfl, rfl⟩) rfl rfl
  simpa using h

theorem chunksOfGo_flatten {α : Type} (bs : Nat) (hbs : 1 ≤ bs) :
    ∀ (fuel : Nat) (l : List α), l.length ≤ fuel →
      (chunksOfGo bs fuel l).flatten = l := by
  intro fuel
  induction fuel with
  | zero =>
    intro l hl
    have : l = [] := List.eq_nil_of_length_eq_zero (Nat.le_zero.mp hl)
    subst this
    simp [chunksOfGo]
  | succ fuel ih =>
    intro l hl
    match l with
    | [] => simp [chunksOfGo]
    | x :: xs =>
      have hdrop : (List.drop bs (x :: xs)).length ≤ fuel := by
        rw [List.length_drop]
        have : 0 < (x :: xs).length := by simp
        omega
      calc (chunksOfGo bs (fuel + 1) (x :: xs)).flatten
          = List.take bs (x :: xs) ++ (chunksOfGo bs fuel (List.drop bs (x :: xs))).flatten := by
            simp [chunksOfGo]
        _ = List.take bs (x :: xs) ++ List.drop bs (x :: xs) := by rw [ih _ hdrop]
        _ = x :: xs := List.take_append_drop bs (x :: xs)

theorem chunksOf_flatten {α : Type} (bs : Nat) (hbs : 1 ≤ bs) (l : List α) :
    (chunksOf bs l).flatten = l :=
  chunksOfGo_flatten bs hbs l.length l (Nat.le_refl _)

theorem foldl_tally_record (l : List UpsertOutcome) :
    ∀ (a b : Nat),
      l.foldl tally_record ⟨a, b⟩ =
        ⟨a + l.countP (fun o => decide (o = UpsertOutcome.success)),
         b + l.countP (fun o => decide (¬ o = UpsertOutcome.success))⟩ := by
  induction l with
  | nil => intro a b; simp
  | cons o rest ih =>
    intro a b
    cases o <;> simp [tally_record, List.countP_cons, ih] <;> omega

theorem foldl_batches_eq_foldl_flatten {α β : Type} (f : β → α → β) :
    ∀ (L : List (List α)) (init : β),
      L.foldl (fun s batch => batch.foldl f s) init = L.flatten.foldl f init := by
  intro L
  induction L with
  | nil => intro init; simp
  | cons batch rest ih =>
    intro init
    simp [List.foldl_append, ih]

/-- C7: for any per-record upsert outcomes and any batch size ≥ 1,
`batch_upsert_metaobjects` counts exactly the successful upserts and the
failures (`None` results and caught `ShopifyAPIError`s), every record is
processed (the tallies sum to the record count), and the result does not
depend on the batch partition. -/
theorem batch_upsert_tally :
    ∀ (outcomes : List UpsertOutcome) (bs : Nat), 1 ≤ bs →
      batch_upsert_metaobjects outcomes bs =
        ⟨outcomes.countP (fun o => decide (o = UpsertOutcome.success)),
         outcomes.countP (fun o => decide (¬ o = UpsertOutcome.success))⟩ ∧
      (batch_upsert_metaobjects outcomes bs).upserted +
        (batch_upsert_metaobjects outcomes bs).failed = outcomes.length := by
  intro outcomes bs hbs
  have hmain : batch_upsert_metaobjects outcomes bs =
      ⟨outcomes.countP (fun o => decide (o = UpsertOutcome.success)),
       outcomes.countP (fun o => decide (¬ o = UpsertOutcome.success))⟩ := by
    unfold batch_upsert_metaobjects
    rw [foldl_batches_eq_foldl_flatten, chunksOf_flatten bs hbs,
      foldl_tally_record]
    simp
  refine ⟨hmain, ?_⟩
  rw [hmain]
  simp only
  have := List.length_eq_countP_add_countP
    (fun o => decide (o = UpsertOutcome.success)) outcomes
  simp only [decide_not, decide_eq_true_eq] at this ⊢
  omega

/-- Witness for C7: five records of which two fail (one `None` result, one
raised `ShopifyAPIError`), processed with batch size 2. -/
theorem batch_upsert_tally_witness :
    batch_upsert_metaobjects
      [UpsertOutcome.success, UpsertOutcome.absent, UpsertOutcome.success,
        UpsertOutcome.apiError, UpsertOutcome.success] 2 = ⟨3, 2⟩ := by
  have h := (batch_upsert_tally
    [UpsertOutcome.success, UpsertOutcome.absent, UpsertOutcome.success,
      UpsertOutcome.apiError, UpsertOutcome.success] 2 (by decide)).1
  simpa using h

theorem wait_exponential_bounds (n : Nat) :
    4 ≤ wait_exponential n ∧ wait_exponential n ≤ 10 := by
  unfold wait_exponential
  constructor <;> omega

theorem tenacityGo_attempt_count {α : Type} (att : Nat → Except ReqErr α) :
    ∀ (fuel n : Nat) (ws : List Nat),
      (tenacityGo att n fuel ws).2.1 ≤ n + fuel := by
  intro fuel
  induction fuel with
  | zero =>
    intro n ws
    unfold tenacityGo
    cases h : att n with
    | ok v => simp
    | error e => by_cases hr : retryable e <;> simp [hr]
  | succ fuel ih =>
    intro n ws
    unfold tenacityGo
    cases h : att n with
    | ok v => simp
    | error e =>
      by_cases hr : retryable e
      · have := ih (n + 1) (ws ++ [wait_exponential n])
        simp only [hr, if_true]
        omega
      · simp [hr]

theorem tenacityGo_waits_bounded {α : Type} (att : Nat → Except ReqErr α) :
    ∀ (fuel n : Nat) (ws : List Nat),
      (∀ w ∈ ws, 4 ≤ w ∧ w ≤ 10) →
      ∀ w ∈ (tenacityGo att n fuel ws).2.2, 4 ≤ w ∧ w ≤ 10 := by
  intro fuel
  induction fuel with
  | zero =>
    intro n ws hws
    unfold tenacityGo
    cases h : att n with
    | ok v => simpa using hws
    | error e => by_cases hr : retryable e <;> simpa [hr] using hws
  | succ fuel ih =>
    intro n ws hws
    unfold tenacityGo
    cases h : att n with
    | ok v => simpa using hws
    | error e =>
      by_cases hr : retryable e
      · simp only [hr, if_true]
        refine ih (n + 1) (ws ++ [wait_exponential n]) ?_
        intro w hw
        rcases List.mem_append.mp hw with hw | hw
        · exact hws w hw
        · have : w = wait_exponential n := by simpa using hw
          subst this
          exact wait_exponential_bounds n
      · simpa [hr] using hws

/-- C6 (amended): the transport makes at most 3 attempts; every wait
between attempts lies in `[4, 10]`; a first-attempt success returns at
once; a non-retryable failure (GraphQL-level or user/business-rule error)
is re-raised on the first occurrence without retry; a retryable failure is
retried after a wait of 4; and when all three attempts fail retryably the
call surfaces a retry-exhaustion error wrapping (not re-raising) the last
error. -/
theorem retry_policy_amended :
    ∀ {α : Type} (att : Nat → Except ReqErr α),
      (retry_call att).2.1 ≤ 3 ∧
      (∀ w ∈ (retry_call att).2.2, 4 ≤ w ∧ w ≤ 10) ∧
      (∀ v, att 1 = Except.ok v →
        retry_call att = (RetryResult.ok v, 1, [])) ∧
      (∀ e, att 1 = Except.error e → retryable e = false →
        retry_call att = (RetryResult.raised e, 1, [])) ∧
      (∀ e v, att 1 = Except.error e → retryable e = true →
        att 2 = Except.ok v →
        retry_call att = (RetryResult.ok v, 2, [4])) ∧
      (∀ e1 e2 e3, att 1 = Except.error e1 → retryable e1 = true →
        att 2 = Except.error e2 → retryable e2 = true →
        att 3 = Except.error e3 → retryable e3 = true →
        retry_call att = (RetryResult.retryError e3, 3, [4, 4])) := by
  intro α att
  refine ⟨?_, ?_, ?_, ?_, ?_, ?_⟩
  · have := tenacityGo_attempt_count att 2 1 []
    simpa [retry_call] using this
  · exact tenacityGo_waits_bounded att 2 1 [] (by intro w hw; simp at hw)
  · intro v h1
    simp [retry_call, tenacityGo, h1]
  · intro e h1 hr
    simp [retry_call, tenacityGo, h1, hr]
  · intro e v h1 hr h2
    simp [retry_call, tenacityGo, h1, hr, h2, wait_exponential]
  · intro e1 e2 e3 h1 hr1 h2 hr2 h3 hr3
    simp [retry_call, tenacityGo, h1, hr1, h2, hr2, h3, hr3, wait_exponential]

/-- Witness for C6: a first-attempt `ShopifyUserError` is surfaced at once
with no retry. -/
theorem retry_policy_witness :
    retry_call (fun _ => (Except.error ReqErr.userError : Except ReqErr String)) =
      (RetryResult.raised ReqErr.userError, 1, []) :=
  (retry_policy_amended
    (fun _ => (Except.error ReqErr.userError : Except ReqErr String))).2.2.2.1
    ReqErr.userError rfl rfl

theorem exceptOkBind {ε α β : Type} (a : α) (f : α → Except ε β) :
    (Except.ok a : Except ε α) >>= f = f a := rfl

theorem exceptPureEq {ε β : Type} (b : β) :
    (pure b : Except ε β) = Except.ok b := rfl

theorem validate_field_value_safe (v : PyValue) (rule : Validation)
    (h : rule_safe v rule = true) :
    ∃ b, validate_field_value v rule = Except.ok b := by
  by_cases hmm : rule.name = "min" ∨ rule.name = "max"
  · have h' : floatCoercible v = true ∧ (parseFloatStr rule.value).isSome = true := by
      simpa [rule_safe, hmm] using h
    obtain ⟨hc, hp⟩ := h'
    cases hv : pyFloat v with
    | error e => simp [floatCoercible, hv] at hc
    | ok a =>
      cases hq : parseFloatStr rule.value with
      | none => simp [hq] at hp
      | some q =>
        by_cases hmin : rule.name = "min"
        · refine ⟨decide (q ≤ a), ?_⟩
          simp [validate_field_value, hmin, hv, floatOfStr, hq, exceptOkBind]
        · have hmax : rule.name = "max" := by tauto
          refine ⟨decide (a ≤ q), ?_⟩
          simp [validate_field_value, hmin, hmax, hv, floatOfStr, hq, exceptOkBind]
  · push_neg at hmm
    obtain ⟨hmin, hmax⟩ := hmm
    by_cases hpat : rule.name = "pattern"
    · have hp : (parsePattern rule.value).isSome = true := by
        simpa [rule_safe, hmin, hmax, hpat] using h
      cases hr : parsePattern rule.value with
      | none => simp [hr] at hp
      | some r =>
        refine ⟨reMatch r (pyStr v), ?_⟩
        simp [validate_field_value, hmin, hmax, hpat, hr, exceptPureEq]
    · by_cases hin : rule.name = "in"
      · refine ⟨pyInSplit v rule.value, ?_⟩
        simp [validate_field_value, hmin, hmax, hpat, hin, exceptPureEq]
      · refine ⟨true, ?_⟩
        simp [validate_field_value, hmin, hmax, hpat, hin, exceptPureEq]

theorem field_validation_errors_safe (k : String) (v : PyValue) :
    ∀ rules : List Validation, (∀ r ∈ rules, rule_safe v r = true) →
      ∃ l, field_validation_errors k v rules = Except.ok l := by
  intro rules
  induction rules with
  | nil => intro _; exact ⟨[], rfl⟩
  | cons r rest ih =>
    intro hsafe
    obtain ⟨b, hb⟩ :=
      validate_field_value_safe v r (hsafe r (List.mem_cons_self r rest))
    obtain ⟨tl, htl⟩ := ih (fun r' hr' => hsafe r' (List.mem_cons_of_mem r hr'))
    refine ⟨if b then tl
      else ("Validation failed for field " ++ k ++ ": " ++
        r.name ++ " = " ++ r.value) :: tl, ?_⟩
    simp [field_validation_errors, hb, htl, exceptOkBind, exceptPureEq]

theorem validation_errors_safe (rf : List (String × PyValue)) :
    ∀ fields : List MetaobjectFieldDefinition,
      (∀ f ∈ fields, ∀ v, dictGet rf f.key = some v →
        ∀ rule ∈ f.validations, rule_safe v rule = true) →
      ∃ l, validation_errors fields rf = Except.ok l := by
  intro fields
  induction fields with
  | nil => intro _; exact ⟨[], rfl⟩
  | cons f fs ih =>
    intro hsafe
    obtain ⟨tl, htl⟩ := ih (fun f' hf' => hsafe f' (List.mem_cons_of_mem f hf'))
    cases hv : dictGet rf f.key with
    | none =>
      refine ⟨tl, ?_⟩
      simp [validation_errors, hv, htl, exceptOkBind, exceptPureEq]
    | some v =>
      obtain ⟨hd, hhd⟩ := field_validation_errors_safe f.key v f.validations
        (hsafe f (List.mem_cons_self f fs) v hv)
      refine ⟨hd ++ tl, ?_⟩
      simp [validation_errors, hv, hhd, htl, exceptOkBind, exceptPureEq]

/-- C1 (amended): `validate_metaobject_definition` reports validation
outcomes only as violation strings — it raises no error — provided every
`min`/`max` rule is applied to a value and rule value that coerce to
numbers and every `pattern` rule carries a well-formed pattern; a `min` or
`max` rule on a value whose textual form is not numeric raises
`ValueError` instead (see the counterexample). -/
theorem validate_no_raise_when_rules_coercible :
    ∀ (m : Metaobject) (d : MetaobjectDefinition),
      (∀ f ∈ d.fields, ∀ v, dictGet m.fields f.key = some v →
        ∀ rule ∈ f.validations, rule_safe v rule = true) →
      ∃ errs, validate_metaobject_definition m d = Except.ok errs := by
  intro m d hsafe
  obtain ⟨va, hva⟩ := validation_errors_safe m.fields d.fields hsafe
  refine ⟨required_errors d.fields m.fields ++
    type_errors d.fields m.fields ++ va, ?_⟩
  simp [validate_metaobject_definition, hva, exceptOkBind, exceptPureEq]

/-- Witness for C1's amended theorem: a record with no fields trivially
meets the coercibility hypotheses, and validation returns its violation
list without raising. -/
theorem validate_no_raise_witness :
    ∃ errs,
      validate_metaobject_definition ⟨"country", "h", none, []⟩
        ⟨"country", "Country", none,
          [⟨"code", "Code", "text", none, true, [⟨"min", "1"⟩]⟩]⟩ =
        Except.ok errs :=
  validate_no_raise_when_rules_coercible _ _
    (by intro f hf v hv; simp [dictGet] at hv)

theorem from_shopify_data_metafields_eq (data : WireData) :
    (from_shopify_data data).metafields =
      data.metafields.foldl metafield_fold_step [] := rfl

theorem dictGet_foldl_insert_not_mem {κ β γ : Type} [DecidableEq κ]
    (kf : γ → κ) (vf : γ → β) :
    ∀ (l : List γ) (d : List (κ × β)) (k : κ),
      (∀ g ∈ l, kf g ≠ k) →
      dictGet (l.foldl (fun acc g => dictInsert acc (kf g) (vf g)) d) k =
        dictGet d k := by
  intro l
  induction l with
  | nil => intro d k _; rfl
  | cons g gs ih =>
    intro d k hk
    have hg : kf g ≠ k := hk g (List.mem_cons_self g gs)
    have hrest := ih (dictInsert d (kf g) (vf g)) k
      (fun g' hg' => hk g' (List.mem_cons_of_mem g hg'))
    calc dictGet (((g :: gs).foldl
          (fun acc g => dictInsert acc (kf g) (vf g)) d)) k
        = dictGet ((gs.foldl (fun acc g => dictInsert acc (kf g) (vf g))
            (dictInsert d (kf g) (vf g)))) k := rfl
      _ = dictGet (dictInsert d (kf g) (vf g)) k := hrest
      _ = dictGet d k := dictGet_dictInsert_ne d k (kf g) (vf g) (fun h => hg h.symm)

theorem dictGet_foldl_insert_mem {κ β γ : Type} [DecidableEq κ]
    (kf : γ → κ) (vf : γ → β) :
    ∀ (l : List γ) (d : List (κ × β)) (x : γ),
      (l.map kf).Nodup → x ∈ l →
      dictGet (l.foldl (fun acc g => dictInsert acc (kf g) (vf g)) d) (kf x) =
        some (vf x) := by
  intro l
  induction l with
  | nil => intro d x _ hx; exact absurd hx (List.not_mem_nil x)
  | cons g gs ih =>
    intro d x hnd hx
    have hnd' := hnd
    rw [List.map_cons, List.nodup_cons] at hnd'
    obtain ⟨hnotin, hndtail⟩ := hnd'
    rcases List.mem_cons.mp hx with hxg | hxgs
    · subst hxg
      have hne : ∀ g' ∈ gs, kf g' ≠ kf x := by
        intro g' hg' heq
        exact hnotin (heq ▸ List.mem_map_of_mem kf hg')
      calc dictGet (((x :: gs).foldl
            (fun acc g => dictInsert acc (kf g) (vf g)) d)) (kf x)
          = dictGet ((gs.foldl (fun acc g => dictInsert acc (kf g) (vf g))
              (dictInsert d (kf x) (vf x)))) (kf x) := rfl
        _ = dictGet (dictInsert d (kf x) (vf x)) (kf x) :=
            dictGet_foldl_insert_not_mem kf vf gs _ (kf x) hne
        _ = some (vf x) := dictGet_dictInsert_self d (kf x) (vf x)
    · exact ih (dictInsert d (kf g) (vf g)) x hndtail hxgs

theorem metafield_fold_preserve :
    ∀ (l : List WireMetafield)
      (d : List (String × List (Option String × WireMetafield)))
      (ns0 : String) (k0 : Option String) (mf : WireMetafield),
      (∀ m ∈ l, mfGroupKey m ≠ (ns0, k0)) →
      dictGet ((dictGet d ns0).getD []) k0 = some mf →
      dictGet ((dictGet (l.foldl metafield_fold_step d) ns0).getD []) k0 =
        some mf := by
  intro l
  induction l with
  | nil => intro d ns0 k0 mf _ hd; exact hd
  | cons m ms ih =>
    intro d ns0 k0 mf hne hd
    refine ih (metafield_fold_step d m) ns0 k0 mf
      (fun m' hm' => hne m' (List.mem_cons_of_mem m hm')) ?_
    have hm := hne m (List.mem_cons_self m ms)
    unfold metafield_fold_step
    by_cases hns : m.ns.getD "custom" = ns0
    · have hkey : m.key ≠ k0 := by
        intro hk
        exact hm (by simp [mfGroupKey, hns, hk])
      rw [hns, dictGet_dictInsert_self]
      simp only [Option.getD_some]
      rw [dictGet_dictInsert_ne _ k0 m.key m (fun h => hkey h.symm)]
      exact hd
    · rw [dictGet_dictInsert_ne _ ns0 (m.ns.getD "custom") _
        (fun h => hns h.symm)]
      exact hd

theorem metafield_fold_mem :
    ∀ (l : List WireMetafield)
      (d : List (String × List (Option String × WireMetafield)))
      (x : WireMetafield),
      (l.map mfGroupKey).Nodup → x ∈ l →
      dictGet ((dictGet (l.foldl metafield_fold_step d)
        (x.ns.getD "custom")).getD []) x.key = some x := by
  intro l
  induction l with
  | nil => intro d x _ hx; exact absurd hx (List.not_mem_nil x)
  | cons m ms ih =>
    intro d x hnd hx
    rw [List.map_cons, List.nodup_cons] at hnd
    obtain ⟨hnotin, hndtail⟩ := hnd
    rcases List.mem_cons.mp hx with hxm | hxms
    · subst hxm
      have hne : ∀ m' ∈ ms, mfGroupKey m' ≠ (x.ns.getD "custom", x.key) := by
        intro m' hm' heq
        exact hnotin (by
          have hx' : mfGroupKey m' = mfGroupKey x := heq
          exact hx' ▸ List.mem_map_of_mem mfGroupKey hm')
      refine metafield_fold_preserve ms (metafield_fold_step d x)
        (x.ns.getD "custom") x.key x hne ?_
      unfold metafield_fold_step
      rw [dictGet_dictInsert_self]
      simp only [Option.getD_some]
      exact dictGet_dictInsert_self _ x.key x
    · exact ih (metafield_fold_step d m) x hndtail hxms

/-- C2 (amended): `from_shopify_data` never fails — a payload missing
`type` or `handle` constructs a record carrying `none` there (see the
counterexample) — and for any payload it copies `type` and `handle`,
maps the fields list to a key→value dict, and groups the metafields by
namespace (default `custom`) then key. -/
theorem from_shopify_data_builds_record :
    ∀ data : WireData,
      (from_shopify_data data).type = data.type ∧
      (from_shopify_data data).handle = data.handle ∧
      ((data.fields.map WireField.key).Nodup →
        ∀ f ∈ data.fields,
          dictGet (from_shopify_data data).fields f.key = some f.value) ∧
      ((data.metafields.map mfGroupKey).Nodup →
        ∀ m ∈ data.metafields,
          dictGet ((dictGet (from_shopify_data data).metafields
            (m.ns.getD "custom")).getD []) m.key = some m) := by
  intro data
  refine ⟨rfl, rfl, ?_, ?_⟩
  · intro hnd f hf
    exact dictGet_foldl_insert_mem WireField.key WireField.value
      data.fields [] f hnd hf
  · intro hnd m hm
    rw [from_shopify_data_metafields_eq]
    exact metafield_fold_mem data.metafields [] m hnd hm

/-- Witness for C2's amended theorem at a concrete one-field, one-metafield
payload. -/
theorem from_shopify_data_builds_record_witness :
    dictGet (from_shopify_data
      ⟨some "gid", some "tp", some "h", [⟨"a", "1"⟩],
        [⟨some "custom", some "k", "v", "ty"⟩]⟩).fields "a" = some "1" ∧
    dictGet ((dictGet (from_shopify_data
      ⟨some "gid", some "tp", some "h", [⟨"a", "1"⟩],
        [⟨some "custom", some "k", "v", "ty"⟩]⟩).metafields
      "custom").getD []) (some "k") =
      some ⟨some "custom", some "k", "v", "ty"⟩ := by
  have h := from_shopify_data_builds_record
    ⟨some "gid", some "tp", some "h", [⟨"a", "1"⟩],
      [⟨some "custom", some "k", "v", "ty"⟩]⟩
  refine ⟨h.2.2.1 (by simp) ⟨"a", "1"⟩ (by simp), ?_⟩
  have hm := h.2.2.2 (by simp) ⟨some "custom", some "k", "v", "ty"⟩ (by simp)
  simpa using hm

theorem required_errors_eq_nil_iff (fields : List MetaobjectFieldDefinition)
    (rf : List (String × PyValue)) :
    required_errors fields rf = [] ↔
      ∀ f ∈ fields, f.required = true → dictGet rf f.key ≠ none := by
  unfold required_errors
  rw [List.filterMap_eq_nil_iff]
  constructor
  · intro h f hf hreq hnone
    have h2 := h f hf
    simp [hreq, hnone] at h2
  · intro h f hf
    by_cases hreq : f.required = true
    · by_cases hnone : dictGet rf f.key = none
      · exact absurd hnone (h f hf hreq)
      · simp [hreq, hnone]
    · simp [hreq]

theorem type_errors_eq_nil_iff (fields : List MetaobjectFieldDefinition)
    (rf : List (String × PyValue)) :
    type_errors fields rf = [] ↔
      ∀ f ∈ fields, ∀ v, dictGet rf f.key = some v →
        validate_field_type v f.type = true := by
  unfold type_errors
  rw [List.filterMap_eq_nil_iff]
  constructor
  · intro h f hf v hv
    have h2 := h f hf
    rw [hv] at h2
    by_cases ht : validate_field_type v f.type = true
    · exact ht
    · simp [ht] at h2
  · intro h f hf
    cases hv : dictGet rf f.key with
    | none => rfl
    | some v => simp [h f hf v hv]

theorem exceptErrBind {ε α β : Type} (e : ε) (f : α → Except ε β) :
    (Except.error e : Except ε α) >>= f = Except.error e := rfl

theorem exceptMapOk {ε α β : Type} (g : α → β) (a : α) :
    g <$> (Except.ok a : Except ε α) = Except.ok (g a) := rfl

theorem exceptMapErr {ε α β : Type} (g : α → β) (e : ε) :
    g <$> (Except.error e : Except ε α) = Except.error e := rfl

theorem field_validation_errors_eq_nil_iff (k : String) (v : PyValue) :
    ∀ (rules : List Validation) (l : List String),
      field_validation_errors k v rules = Except.ok l →
      (l = [] ↔ ∀ r ∈ rules, validate_field_value v r = Except.ok true) := by
  intro rules
  induction rules with
  | nil =>
    intro l hl
    simp only [field_validation_errors, exceptPureEq, Except.ok.injEq] at hl
    subst hl
    simp
  | cons r rest ih =>
    intro l hl
    cases hvr : validate_field_value v r with
    | error e =>
      simp [field_validation_errors, hvr, exceptErrBind] at hl
    | ok b =>
      cases hrec : field_validation_errors k v rest with
      | error e =>
        simp [field_validation_errors, hvr, hrec, exceptOkBind,
          exceptMapErr] at hl
      | ok tl =>
        have hl2 : l = if b = true then tl
            else ("Validation failed for field " ++ k ++ ": " ++
              r.name ++ " = " ++ r.value) :: tl := by
          simp only [field_validation_errors, hvr, hrec, exceptOkBind,
            exceptMapOk, exceptPureEq, Except.ok.injEq] at hl
          exact hl.symm
        have hiff := ih tl hrec
        rw [List.forall_mem_cons]
        cases b with
        | true =>
          simp only [if_true] at hl2
          subst hl2
          rw [hiff]
          simp [hvr]
        | false =>
          simp only [Bool.false_eq_true, if_false] at hl2
          subst hl2
          constructor
          · intro h; exact absurd h (List.cons_ne_nil _ _)
          · intro h
            rw [hvr] at h
            exact absurd h.1 (by simp)

theorem validation_errors_eq_nil_iff (rf : List (String × PyValue)) :
    ∀ (fields : List MetaobjectFieldDefinition) (l : List String),
      validation_errors fields rf = Except.ok l →
      (l = [] ↔ ∀ f ∈ fields, ∀ v, dictGet rf f.key = some v →
        ∀ r ∈ f.validations, validate_field_value v r = Except.ok true) := by
  intro fields
  induction fields with
  | nil =>
    intro l hl
    simp only [validation_errors, exceptPureEq, Except.ok.injEq] at hl
    subst hl
    simp
  | cons f fs ih =>
    intro l hl
    cases hv : dictGet rf f.key with
    | none =>
      cases hrec : validation_errors fs rf with
      | error e =>
        simp [validation_errors, hv, hrec, exceptOkBind, exceptErrBind,
          exceptMapErr, exceptPureEq] at hl
      | ok tl =>
        have hl2 : l = tl := by
          simp only [validation_errors, hv, hrec, exceptOkBind, exceptErrBind,
            exceptMapOk, exceptPureEq, Except.ok.injEq] at hl
          simpa using hl.symm
        rw [hl2, ih tl hrec, List.forall_mem_cons]
        constructor
        · intro h
          refine ⟨?_, h⟩
          intro v hv2
          rw [hv] at hv2
          cases hv2
        · intro h; exact h.2
    | some v =>
      cases hfv : field_validation_errors f.key v f.validations with
      | error e =>
        simp [validation_errors, hv, hfv, exceptErrBind] at hl
      | ok hd =>
        cases hrec : validation_errors fs rf with
        | error e =>
          simp [validation_errors, hv, hfv, hrec, exceptOkBind, exceptErrBind,
            exceptMapErr] at hl
        | ok tl =>
          have hl2 : l = hd ++ tl := by
            simp only [validation_errors, hv, hfv, hrec, exceptOkBind,
              exceptMapOk, exceptPureEq, Except.ok.injEq] at hl
            simpa using hl.symm
          subst hl2
          rw [List.append_eq_nil, field_validation_errors_eq_nil_iff f.key v
            f.validations hd hfv, ih tl hrec, List.forall_mem_cons]
          constructor
          · rintro ⟨h1, h2⟩
            refine ⟨?_, h2⟩
            intro v' hv'
            rw [hv] at hv'
            cases hv'
            exact h1
          · rintro ⟨h1, h2⟩
            exact ⟨h1 v hv, h2⟩

theorem validate_eq_ok_decompose (m : Metaobject) (d : MetaobjectDefinition)
    (va : List String)
    (hva : validation_errors d.fields m.fields = Except.ok va) :
    validate_metaobject_definition m d =
      Except.ok (required_errors d.fields m.fields ++
        type_errors d.fields m.fields ++ va) := by
  simp [validate_metaobject_definition, hva, exceptOkBind, exceptMapOk,
    exceptPureEq, List.append_assoc]

theorem validate_eq_ok_inv (m : Metaobject) (d : MetaobjectDefinition)
    (errs : List String)
    (h : validate_metaobject_definition m d = Except.ok errs) :
    ∃ va, validation_errors d.fields m.fields = Except.ok va ∧
      errs = required_errors d.fields m.fields ++
        type_errors d.fields m.fields ++ va := by
  cases hva : validation_errors d.fields m.fields with
  | error e =>
    exfalso
    have herr : validate_metaobject_definition m d = Except.error e := by
      simp [validate_metaobject_definition, hva, exceptErrBind, exceptMapErr]
    rw [herr] at h
    exact Except.noConfusion h
  | ok va =>
    have h2 := validate_eq_ok_decompose m d va hva
    rw [h2] at h
    exact ⟨va, rfl, (Except.ok.inj h).symm⟩

/-- C4: validation accumulates all violations without short-circuiting, in
phase order — required-presence first, then type compatibility, then
declared constraints (each returned by its own loop, concatenated in that
order); every missing required field contributes a violation naming it;
the result is empty exactly when the record satisfies every
required/type/validation rule; unknown declared types and unknown
validation names are always satisfied. -/
theorem validate_accumulates_all_violations :
    ∀ (m : Metaobject) (d : MetaobjectDefinition) (errs : List String),
      validate_metaobject_definition m d = Except.ok errs →
      (∃ va, validation_errors d.fields m.fields = Except.ok va ∧
        errs = required_errors d.fields m.fields ++
          type_errors d.fields m.fields ++ va) ∧
      (∀ f ∈ d.fields, f.required = true → dictGet m.fields f.key = none →
        ("Missing required field: " ++ f.key) ∈ errs) ∧
      (errs = [] ↔ satisfies_definition m d) ∧
      (∀ (v : PyValue) (t : String), ¬ t ∈ known_type_names →
        validate_field_type v t = true) ∧
      (∀ (v : PyValue) (rule : Validation),
        ¬ rule.name ∈ (["min", "max", "pattern", "in"] : List String) →
        validate_field_value v rule = Except.ok true) := by
  intro m d errs h
  obtain ⟨va, hva, heq⟩ := validate_eq_ok_inv m d errs h
  refine ⟨⟨va, hva, heq⟩, ?_, ?_, ?_, ?_⟩
  · intro f hf hreq hnone
    have hmem : ("Missing required field: " ++ f.key) ∈
        required_errors d.fields m.fields :=
      List.mem_filterMap.mpr ⟨f, hf, by simp [hreq, hnone]⟩
    rw [heq]
    exact List.mem_append_left _ (List.mem_append_left _ hmem)
  · rw [heq]
    unfold satisfies_definition
    constructor
    · intro hnil
      rw [List.append_eq_nil, List.append_eq_nil] at hnil
      obtain ⟨⟨h1, h2⟩, h3⟩ := hnil
      exact ⟨(required_errors_eq_nil_iff d.fields m.fields).mp h1,
        (type_errors_eq_nil_iff d.fields m.fields).mp h2,
        (validation_errors_eq_nil_iff m.fields d.fields va hva).mp h3⟩
    · rintro ⟨hs1, hs2, hs3⟩
      rw [(required_errors_eq_nil_iff d.fields m.fields).mpr hs1,
        (type_errors_eq_nil_iff d.fields m.fields).mpr hs2,
        (validation_errors_eq_nil_iff m.fields d.fields va hva).mpr hs3]
      rfl
  · intro v t ht
    simp only [known_type_names, List.mem_cons, List.not_mem_nil,
      or_false] at ht
    push_neg at ht
    obtain ⟨h1, h2, h3, h4, h5, h6, h7, h8, h9, h10, h11, h12, h13⟩ := ht
    simp [validate_field_type, h1, h2, h3, h4, h5, h6, h7, h8, h9, h10,
      h11, h12, h13]
  · intro v rule hr
    simp only [List.mem_cons, List.not_mem_nil, or_false] at hr
    push_neg at hr
    obtain ⟨r1, r2, r3, r4⟩ := hr
    simp [validate_field_value, r1, r2, r3, r4, exceptPureEq]

/-- Witness for C4: an empty definition is satisfied by an empty record,
read off from the empty violation list. -/
theorem validate_accumulates_witness :
    satisfies_definition ⟨"t", "h", none, []⟩ ⟨"t", "T", none, []⟩ :=
  ((validate_accumulates_all_violations ⟨"t", "h", none, []⟩
    ⟨"t", "T", none, []⟩ [] rfl).2.2.1).mp rfl
